import Mathlib

/-!
Verification of `pip-faster` (src/pip_faster.py, src/venv_update.py).

The Python code is shallowly embedded: pure fragments become Lean
functions, the breadth-first dependency trace becomes an explicit step
function iterated with fuel, and side-effecting control flow (process
exit, subprocess invocation, filesystem mtime updates, `exec`) is
modelled as explicit action traces and `Except`-style outcomes.

External collaborators (pip / pkg_resources / the filesystem) are
modelled by small data types faithful to the interfaces the source code
uses: versions are `Nat`, version specifiers are lists of
(operator, version) pairs, a filesystem is a finite map from path to
inode number.
-/

namespace PipFaster

/-- A version-specifier operator, as used in `pkg_resources` specs
(`requirement.specs` is a list of `(qualifier, version)` pairs). -/
inductive Op
  | eq | ne | lt | le | gt | ge
deriving DecidableEq

/-- Model of `opSat o v s`: does installed version `v` satisfy the single
specifier `(o, s)`?  (Black-box model of `pkg_resources` version
comparison, with versions as naturals.) -/
def opSat : Op → Nat → Nat → Bool
  | .eq, v, s => v == s
  | .ne, v, s => v != s
  | .lt, v, s => decide (v < s)
  | .le, v, s => decide (v ≤ s)
  | .gt, v, s => decide (s < v)
  | .ge, v, s => decide (s ≤ v)

/-- A `pkg_resources.Requirement` (the `.req` attribute of a pip
`InstallRequirement`): a normalized project key plus its version
specifiers. -/
structure ReqSpec where
  key : String
  specs : List (Op × Nat)
deriving DecidableEq

/-- Model of `v in requirement` from `pkg_resources`: the version satisfies every
specifier. -/
def specSat (r : ReqSpec) (v : Nat) : Bool :=
  r.specs.all fun p => opSat p.1 v p.2

/-- An installed distribution record (`pkg_resources.Distribution`):
normalized key, version, install location, and the declared dependency
requirements returned by `dist.requires()`. -/
structure Dist where
  key : String
  version : Nat
  location : String
  requires : List ReqSpec
deriving DecidableEq

/-- A pip `InstallRequirement`: `req` is `None` for url-style / `file:///`
requirements; `comes_from` is the parent tag used in error messages. -/
structure InstallRequirement where
  req : Option ReqSpec
  comes_from : String
deriving DecidableEq

/-- Black-box model of `str(req)` on an `InstallRequirement`, used only as
the `comes_from` tag handed to child requirements in the trace. -/
def strOfReq (q : InstallRequirement) : String :=
  match q.req with
  | none => q.comes_from
  | some rr =>
    if q.comes_from = "" then rr.key
    else rr.key ++ " (from " ++ q.comes_from ++ ")"

/-- Outcome of `working_set.find(req.req)` in `pkg_resources`:
the distribution with the requirement's key either is absent, satisfies
the requirement, or raises `VersionConflict` carrying the conflicting
distribution. -/
inductive FindResult
  | found (d : Dist)
  | conflict (d : Dist)
  | notFound
deriving DecidableEq

/-- Model of `WorkingSet.find`: look the key up in the working set; a present but
non-satisfying distribution is a `VersionConflict`. -/
def wsFind (ws : List Dist) (r : ReqSpec) : FindResult :=
  match ws.find? (fun d => d.key == r.key) with
  | none => .notFound
  | some d => if specSat r d.version then .found d else .conflict d

/-- Model of `sorted(dist.requires(), key=lambda req: req.key)` from
`trace_requirements` (stable sort by key). -/
def sortDeps (l : List ReqSpec) : List ReqSpec :=
  List.insertionSort (fun a b : ReqSpec => a.key ≤ b.key) l

/-- The mutable state of the `while queue:` loop in `trace_requirements`:
the deque, the accumulated result (we record the `Distribution` that
`dist_to_req` freezes), the `errors` flag and the `seen_warnings` set. -/
structure TraceState where
  queue : List InstallRequirement
  result : List Dist
  errors : Bool
  seen : List String
deriving DecidableEq

/-- One iteration of the `while queue:` loop body of `trace_requirements`
(src/pip_faster.py lines 288-317).  On a conflict the conflicting
distribution is still appended and its dependencies still enqueued, as in
the source; the result is appended unconditionally (no deduplication
exists in the source). -/
def traceStep (ws : List Dist) (s : TraceState) : TraceState :=
  match s.queue with
  | [] => s
  | req :: rest =>
    match req.req with
    | none => { s with queue := rest }
    | some rr =>
      match wsFind ws rr with
      | .notFound =>
        { s with queue := rest, errors := true }
      | .conflict d =>
        { queue := rest ++ (sortDeps d.requires).map
            (fun dr => { req := some dr, comes_from := strOfReq req }),
          result := s.result ++ [d],
          errors := if s.seen.contains rr.key then s.errors else true,
          seen := if s.seen.contains rr.key then s.seen else s.seen ++ [rr.key] }
      | .found d =>
        { queue := rest ++ (sortDeps d.requires).map
            (fun dr => { req := some dr, comes_from := strOfReq req }),
          result := s.result ++ [d],
          errors := s.errors,
          seen := s.seen }

/-- Iterate `traceStep` with explicit fuel; `none` means the fuel ran out
with the queue still non-empty (the source loop has no bound of its own). -/
def traceFuel (ws : List Dist) : Nat → TraceState → Option TraceState
  | 0, s => if s.queue = [] then some s else none
  | n + 1, s => if s.queue = [] then some s else traceFuel ws n (traceStep ws s)

/-- The initial loop state of `trace_requirements`: queue seeded with the
parsed requirements, empty result, no errors, no warnings seen. -/
def initTrace (requirements : List InstallRequirement) : TraceState :=
  { queue := requirements, result := [], errors := false, seen := [] }

/-- Model of `trace_requirements` (src/pip_faster.py lines 272-322): run the
breadth-first loop; afterwards `exit(1)` if the errors flag is set
(`Except.error 1`), else return the accumulated closure. -/
def trace_requirements (ws : List Dist) (requirements : List InstallRequirement)
    (fuel : Nat) : Option (Except Nat (List Dist)) :=
  match traceFuel ws fuel (initTrace requirements) with
  | none => none
  | some s => some (if s.errors then Except.error 1 else Except.ok s.result)

/-- Proposition that `trace_requirements` terminates on the given input: some fuel
suffices to drain the queue. -/
def TraceTerminates (ws : List Dist) (requirements : List InstallRequirement) : Prop :=
  ∃ fuel s, traceFuel ws fuel (initTrace requirements) = some s

/-- The pip invocations `do_install` makes, in order.  The three install
phases before the trace are treated as black boxes by the claims; the uninstall action
carries the package-name arguments that follow `('uninstall', '--yes')`. -/
inductive PipAction
  | installBootstrap
  | wheelCache
  | installMain
  | uninstall (packages : List String)
deriving DecidableEq

/-- Model of `set(['pip', 'setuptools', 'wheel'])`, the stage1 bootstrap packages
excluded from pruning in `do_install`. -/
def bootstrapNames : List String := ["pip", "setuptools", "wheel"]

/-- The `extraneous` set of `do_install` (src/pip_faster.py lines
378-383), materialised the way Python hands it to `pip uninstall`:
`tuple(sorted(extraneous))`.  Python's set difference of name sets is a
duplicate-free membership filter; `sorted` renders it as an ascending
list. -/
def extraneousList (previously : List String) (required_with_deps : List Dist)
    (recently : List String) : List String :=
  List.insertionSort (fun a b : String => a ≤ b)
    (previously.dedup.filter fun n =>
      decide (n ∉ required_with_deps.map Dist.key) &&
      decide (n ∉ recently) && decide (n ∉ bootstrapNames))

/-- Model of `do_install` (src/pip_faster.py lines 329-387) from the point where
the three pip phases have run: `previously` are the names
`pip_get_installed` reported before anything ran, `recently` the names
the two `pip_install` calls reported as freshly installed.  The function
returns the ordered pip invocations together with the process outcome;
`exit(1)` raised inside `trace_requirements` propagates (there is no
handler in `do_install`), so the uninstall step is never built in that
case. -/
def do_install (ws : List Dist) (previously : List String)
    (required : List InstallRequirement) (recently : List String)
    (fuel : Nat) : Option (List PipAction × Except Nat Unit) :=
  let pre : List PipAction := [.installBootstrap, .wheelCache, .installMain]
  match trace_requirements ws required fuel with
  | none => none
  | some (Except.error c) => some (pre, Except.error c)
  | some (Except.ok required_with_deps) =>
    let extraneous := extraneousList previously required_with_deps recently
    if extraneous = [] then some (pre, Except.ok ())
    else some (pre ++ [.uninstall extraneous], Except.ok ())

/-- The spec's reconciliation formula (spec section 4.4), stated over
finite sets of names:
`names(previously_installed) − names(required_with_transitive) −
names(freshly_installed) − {pip, setuptools, wheel}`.  This is the
spec-side definition, to be compared with the code-side
`extraneousList`. -/
def specExtraneous (previously : List String) (required_with_deps : List Dist)
    (recently : List String) : Finset String :=
  ((previously.toFinset \ (required_with_deps.map Dist.key).toFinset) \
    recently.toFinset) \ {"pip", "setuptools", "wheel"}

/-- An upper bound on how many dependencies any one distribution of the
working set declares. -/
def depBound (ws : List Dist) : Nat :=
  ws.foldr (fun d acc => max d.requires.length acc) 0

/-- Weight of one queued requirement under a rank function on package
names: url-style requirements weigh 1, named ones weigh
`(depBound ws + 1) ^ rank key`. -/
def qWeight (ws : List Dist) (rank : String → Nat) (q : InstallRequirement) : Nat :=
  match q.req with
  | none => 1
  | some rr => (depBound ws + 1) ^ rank rr.key

/-- Termination measure of a trace state: the total weight of its queue. -/
def traceMeasure (ws : List Dist) (rank : String → Nat) (s : TraceState) : Nat :=
  (s.queue.map (qWeight ws rank)).sum

/-- Model of `req_is_absolute` (src/pip_faster.py lines 84-92): `False` for
url-style requirements (`req.req is None`), else `True` iff some
specifier's qualifier is `==`. -/
def req_is_absolute : Option ReqSpec → Bool
  | none => false
  | some r => r.specs.any fun p => p.1 == Op.eq

/-- A `.whl` file as `pip.wheel.Wheel` parses it from its filename:
munged name, embedded version, and whether its platform tag is supported
by the running interpreter. -/
structure Wheel where
  name : String
  version : Nat
  supported : Bool
deriving DecidableEq

/-- The local filesystem seen by the wheel glob: pairs of (directory,
wheel file found in that directory). -/
abbrev Disk := List (String × Wheel)

/-- Model of `glob(join(findlink, reqname + '-*.whl'))` followed by
`Wheel(link.filename)`: the wheels in the directory whose munged name is
`reqname`. -/
def globWheels (disk : Disk) (dir : String) (reqname : String) : List Wheel :=
  (disk.filter fun e => e.1 == dir && e.2.name == reqname).map Prod.snd

/-- Result of `faster_find_requirement`: raise
`BestVersionAlreadyInstalled`, return `None`, return a local wheel link,
or fall through to the unpatched full network search. -/
inductive FindOutcome
  | bestAlreadyInstalled
  | noneResult
  | localLink (w : Wheel)
  | network
deriving DecidableEq

/-- Model of `findlink.startswith('file://')`, character-level. -/
def strStartsWith (s pre : String) : Bool :=
  pre.toList.isPrefixOf s.toList

/-- The `for findlink in self.find_links:` loop of
`faster_find_requirement` (src/pip_faster.py lines 113-124): non-`file://`
links are skipped, and the first globbed wheel whose version satisfies
the requirement and whose platform is supported is returned. -/
def searchFindLinks (disk : Disk) (rr : ReqSpec) (reqname : String) :
    List String → Option Wheel
  | [] => none
  | fl :: rest =>
    if strStartsWith fl "file://" then
      match (globWheels disk (fl.drop 7) reqname).find?
          (fun w => specSat rr w.version && w.supported) with
      | some w => some w
      | none => searchFindLinks disk rr reqname rest
    else searchFindLinks disk rr reqname rest

/-- Model of `req.name.replace('-', '_')`: the name munging pip's wheel machinery
applies to build the glob pattern (character-level replacement). -/
def mungeName (s : String) : String :=
  String.mk (s.toList.map fun c => if c = '-' then '_' else c)

/-- Model of `faster_find_requirement` (src/pip_faster.py lines 95-127).
`satisfied_by` is `req.satisfied_by` (the active distribution satisfying
the requirement, if any); `reqName` is `req.name` as used in the wheel
filename munging. -/
def faster_find_requirement (disk : Disk) (find_links : List String)
    (req_req : Option ReqSpec) (satisfied_by : Option Dist) (reqName : String)
    (upgrade : Bool) : FindOutcome :=
  if req_is_absolute req_req then
    match satisfied_by with
    | some _ => if upgrade then .bestAlreadyInstalled else .noneResult
    | none =>
      match req_req with
      | some rr =>
        match searchFindLinks disk rr (mungeName reqName) find_links with
        | some w => .localLink w
        | none => .network
      | none => .network
  else .network

end PipFaster

namespace VenvUpdate

/-- A filesystem snapshot: a finite association of path to inode number.
Two paths resolve to the same file iff they map to the same inode. -/
structure Fs where
  files : List (String × Nat)
deriving DecidableEq

/-- Model of `os.path.exists` over the snapshot. -/
def pathExists (fs : Fs) (p : String) : Bool :=
  (fs.files.find? fun e => e.1 == p).isSome

/-- The inode a path resolves to, if the path exists. -/
def inode (fs : Fs) (p : String) : Option Nat :=
  (fs.files.find? fun e => e.1 == p).map Prod.snd

/-- Create a path with the given inode (used to model the effect of
`virtualenv`, `pip install --target` and `cp` creating files). -/
def Fs.insert (fs : Fs) (p : String) (i : Nat) : Fs :=
  ⟨(p, i) :: fs.files⟩

/-- Model of `samefile` (src/venv_update.py lines 93-98): `False` when either path
does not exist, else filesystem identity via `os.path.samefile`. -/
def samefile (fs : Fs) (file1 file2 : String) : Bool :=
  if !pathExists fs file1 || !pathExists fs file2 then false
  else inode fs file1 == inode fs file2

/-- Model of `venv_executable` (src/venv_update.py lines 253-254). -/
def venv_executable (venv_path executable : String) : String :=
  venv_path ++ "/bin/" ++ executable

/-- Model of `venv_python` (src/venv_update.py lines 257-258). -/
def venv_python (venv_path : String) : String :=
  venv_executable venv_path "python"

/-- Model of `filename.endswith(sfx)`, character-level. -/
def strEndsWith (s sfx : String) : Bool :=
  sfx.toList.isSuffixOf s.toList

/-- Model of `dotpy` (src/venv_update.py lines 246-250): strip the trailing
character of a `.pyc`/`.pyo`/`.pyd` filename. -/
def dotpy (filename : String) : String :=
  if strEndsWith filename ".pyc" || strEndsWith filename ".pyo" ||
      strEndsWith filename ".pyd" then
    filename.dropRight 1
  else filename

/-- Model of `get_python_version` (src/venv_update.py lines 135-147): `None` when
the interpreter path does not exist, else the version string the
interpreter prints (`versionOf`, a black box for running
`python -c 'import sys; print(sys.version)'`; the subprocess is assumed
to exit cleanly). -/
def get_python_version (fs : Fs) (versionOf : String → String)
    (interpreter : String) : Option String :=
  if pathExists fs interpreter then some (versionOf interpreter) else none

/-- The observable actions of the environment-validity phase, in program
order: `rm -rf` of the environment directory, `execv` into another
interpreter (which replaces the process image), creation of the
environment by `virtualenv.main`, and the subsequent pip install phase
of `venv_update`. -/
inductive VAct
  | rmRf (path : String)
  | execInto (python : String)
  | createVenv (path : String)
  | pipInstall
deriving DecidableEq

/-- The `adjust_options` hook of `ensure_virtualenv` (src/venv_update.py
lines 158-197), as the ordered actions it performs.  Equal source and
destination versions raise `SystemExit(0)` (no action); otherwise an
existing destination interpreter causes `rm -rf` of the environment,
after which the process either re-execs into the source interpreter
(when the running interpreter is not that file) or returns, letting
`virtualenv.main` recreate the environment. -/
def adjust_options (fs : Fs) (versionOf : String → String)
    (current_python source_python venv_path : String) : List VAct :=
  let destination_python := venv_python venv_path
  let source_version := get_python_version fs versionOf source_python
  let destination_version := get_python_version fs versionOf destination_python
  if source_version = destination_version then []
  else
    (if pathExists fs destination_python then [VAct.rmRf venv_path] else []) ++
    (if samefile fs current_python source_python then [VAct.createVenv venv_path]
     else [VAct.execInto source_python])

/-- Model of `venv_update` from `ensure_virtualenv` onwards (src/venv_update.py
lines 287-303): after the validity decision, a re-exec ends this
process's trace; otherwise, once the environment interpreter exists
(kept, or just created by `virtualenv.main`), the pip install phase
runs. -/
def venv_update_trace (fs : Fs) (versionOf : String → String)
    (current_python source_python venv_path : String) : List VAct :=
  let a := adjust_options fs versionOf current_python source_python venv_path
  if VAct.execInto source_python ∈ a then a
  else if VAct.createVenv venv_path ∈ a then a ++ [VAct.pipInstall]
  else if pathExists fs (venv_python venv_path) then a ++ [VAct.pipInstall]
  else a

/-- Model of `exec_intermediate_virtualenv` (src/venv_update.py lines 115-132).
The three conditional `run` steps create the intermediate interpreter,
the `virtualenv.py` module and the script copy when missing (`id1`-`id3`
are the inodes of whatever files they create); then the process re-execs
into the intermediate python unless the running script already is the
scratch copy by filesystem identity.  Returns the final filesystem and
`some python` when it execs, `none` when it returns normally. -/
def exec_intermediate_virtualenv (fs : Fs) (cache_dir script : String)
    (id1 id2 id3 : Nat) : Fs × Option String :=
  let scratch := cache_dir ++ "/venv-update"
  let python := venv_python (scratch ++ "/venv")
  let fs1 := if pathExists fs python then fs else fs.insert python id1
  let fs2 := if pathExists fs1 (scratch ++ "/virtualenv.py") then fs1
             else fs1.insert (scratch ++ "/virtualenv.py") id2
  let venv_update := scratch ++ "/venv-update"
  let fs3 := if pathExists fs2 venv_update then fs2
             else fs2.insert venv_update id3
  if samefile fs3 (dotpy script) venv_update then (fs3, none)
  else (fs3, some python)

/-- The marker-related actions of `mark_venv_valid` /
`mark_venv_invalid`: wait for every child process, and `touch` a path
(`none` timestamp = current time, as `utime(path, None)`). -/
inductive MAct
  | waitAll
  | touch (path : String) (timestamp : Option Nat)
deriving DecidableEq

/-- Model of `mark_venv_valid` (src/venv_update.py lines 228-230): wait for all
subprocesses, then set the environment directory's mtime to now. -/
def mark_venv_valid (venv_path : String) : List MAct :=
  [MAct.waitAll, MAct.touch venv_path none]

/-- Model of `mark_venv_invalid` (src/venv_update.py lines 233-243): only when the
path is not `None` and is a directory, wait for all subprocesses and set
the mtime to epoch 0; otherwise do nothing. -/
def mark_venv_invalid (venv_path : Option String) (isdir : String → Bool) :
    List MAct :=
  match venv_path with
  | none => []
  | some p => if isdir p then [MAct.waitAll, MAct.touch p (some 0)] else []

/-- A Python exit code as `SystemExit` carries it: an integer, a string
(truthy message), or `None`. -/
inductive ExitCode
  | num (n : Int)
  | str (s : String)
  | noneCode
deriving DecidableEq

/-- Python truthiness of an exit code (`if error.code:`). -/
def ExitCode.truthy : ExitCode → Bool
  | .num n => n != 0
  | .str s => s != ""
  | .noneCode => false

/-- The exceptions distinguished by `raise_on_failure` and `main`. -/
inductive Exn
  | systemExit (c : ExitCode)
  | keyboardInterrupt
  | calledProcessError (n : Int)
  | otherError
deriving DecidableEq

/-- Outcome of running a Python callable: a returned value or a raised
exception. -/
inductive PyResult (α : Type)
  | ok (a : α)
  | exn (e : Exn)
deriving DecidableEq

/-- Model of `raise_on_failure` (src/venv_update.py lines 306-319) applied to the
outcome of `mainfunc()` (whose return value is modelled as an
`ExitCode`: `venv_update` returns `None` or an error string): a truthy
return or `SystemExit` propagates as `SystemExit`, `CalledProcessError`
becomes `exit(returncode)`, `KeyboardInterrupt` becomes `exit(1)`, other
exceptions propagate uncaught. -/
def raise_on_failure (r : PyResult ExitCode) : PyResult Unit :=
  match r with
  | .ok errors => if errors.truthy then .exn (.systemExit errors) else .ok ()
  | .exn (.calledProcessError n) => .exn (.systemExit (.num n))
  | .exn (.systemExit c) => if c.truthy then .exn (.systemExit c) else .ok ()
  | .exn .keyboardInterrupt => .exn (.systemExit (.num 1))
  | .exn .otherError => .exn .otherError

/-- Model of `main` (src/venv_update.py lines 322-333): run
`raise_on_failure(lambda: venv_update(args))`; on success mark the
environment valid, on any `BaseException` mark it invalid and re-raise.
Returns the marker actions performed and the propagated outcome. -/
def main_model (isdir : String → Bool) (venv_path : String)
    (r : PyResult ExitCode) : List MAct × PyResult Unit :=
  match raise_on_failure r with
  | .ok () => (mark_venv_valid venv_path, .ok ())
  | .exn e => (mark_venv_invalid (some venv_path) isdir, .exn e)

/-- The number of marker `touch` operations in a trace. -/
def touchCount (acts : List MAct) : Nat :=
  (acts.filter fun a => match a with | .touch _ _ => true | _ => false).length

end VenvUpdate

open PipFaster VenvUpdate

theorem mem_extraneousList (previously : List String) (deps : List Dist)
    (recently : List String) (n : String) :
    n ∈ extraneousList previously deps recently ↔
      n ∈ previously ∧ n ∉ deps.map Dist.key ∧ n ∉ recently ∧ n ∉ bootstrapNames := by
  unfold extraneousList
  rw [(List.perm_insertionSort _ _).mem_iff]
  simp [List.mem_filter, List.mem_dedup, and_assoc]

theorem extraneousList_toFinset (previously : List String) (deps : List Dist)
    (recently : List String) :
    (extraneousList previously deps recently).toFinset =
      specExtraneous previously deps recently := by
  ext n
  simp [specExtraneous, mem_extraneousList, bootstrapNames, Finset.mem_sdiff,
    and_assoc, not_or]

theorem extraneousList_sorted (previously : List String) (deps : List Dist)
    (recently : List String) :
    List.Sorted (fun a b : String => a ≤ b) (extraneousList previously deps recently) :=
  List.sorted_insertionSort _ _

theorem extraneousList_nodup (previously : List String) (deps : List Dist)
    (recently : List String) :
    (extraneousList previously deps recently).Nodup :=
  (List.perm_insertionSort _ _).nodup_iff.mpr
    ((List.nodup_dedup previously).filter _)

/-- C1: if `trace_requirements` flags a version conflict or an unmet
dependency, `do_install` terminates with that non-zero exit
(`trace_requirements` raises `SystemExit(1)`) and its pip invocation
trace contains no uninstall step. -/
theorem c1_trace_error_blocks_uninstall
    (ws : List Dist) (previously : List String) (required : List InstallRequirement)
    (recently : List String) (fuel c : Nat)
    (h : trace_requirements ws required fuel = some (Except.error c)) :
    c = 1 ∧
    ∃ acts, do_install ws previously required recently fuel =
        some (acts, Except.error c) ∧
      ∀ pkgs, PipAction.uninstall pkgs ∉ acts := by
  have hc : c = 1 := by
    unfold trace_requirements at h
    cases htf : traceFuel ws fuel (initTrace required) with
    | none => rw [htf] at h; cases h
    | some s =>
      rw [htf] at h
      by_cases he : s.errors = true
      · simp [he] at h; omega
      · simp [he] at h
  refine ⟨hc, [.installBootstrap, .wheelCache, .installMain], ?_, ?_⟩
  · simp [do_install, h]
  · intro pkgs
    simp

/-- C1 witness: a pinned requirement `a==2` conflicting with installed
`a` version 1 makes the trace exit 1 and `do_install` perform no
uninstall. -/
theorem c1_witness :
    trace_requirements [⟨"a", 1, "", []⟩] [⟨some ⟨"a", [(Op.eq, 2)]⟩, ""⟩] 5 =
      some (Except.error 1) ∧
    (1 = 1 ∧
      ∃ acts, do_install [⟨"a", 1, "", []⟩] ["a"] [⟨some ⟨"a", [(Op.eq, 2)]⟩, ""⟩] [] 5 =
          some (acts, Except.error 1) ∧
        ∀ pkgs, PipAction.uninstall pkgs ∉ acts) :=
  ⟨rfl, c1_trace_error_blocks_uninstall [⟨"a", 1, "", []⟩] ["a"]
    [⟨some ⟨"a", [(Op.eq, 2)]⟩, ""⟩] [] 5 1 rfl⟩

/-- C2: when the trace succeeds, the uninstall arguments are exactly the
spec's set `names(previously) − names(required_with_transitive) −
names(freshly_installed) − {pip, setuptools, wheel}`, uninstall is
invoked iff that set is non-empty, and the arguments are that set in
ascending sorted order without duplicates. -/
theorem c2_uninstall_exact_set
    (ws : List Dist) (previously : List String) (required : List InstallRequirement)
    (recently : List String) (fuel : Nat) (deps : List Dist)
    (h : trace_requirements ws required fuel = some (Except.ok deps)) :
    ∃ acts, do_install ws previously required recently fuel =
        some (acts, Except.ok ()) ∧
      (specExtraneous previously deps recently = ∅ →
        ∀ pkgs, PipAction.uninstall pkgs ∉ acts) ∧
      (specExtraneous previously deps recently ≠ ∅ →
        acts = [.installBootstrap, .wheelCache, .installMain,
                .uninstall (extraneousList previously deps recently)] ∧
        (extraneousList previously deps recently).toFinset =
          specExtraneous previously deps recently ∧
        List.Sorted (fun a b : String => a ≤ b)
          (extraneousList previously deps recently) ∧
        (extraneousList previously deps recently).Nodup) := by
  by_cases he : extraneousList previously deps recently = []
  · refine ⟨[.installBootstrap, .wheelCache, .installMain], ?_, ?_, ?_⟩
    · simp [do_install, h, he]
    · intro _ pkgs
      simp
    · intro hne
      exact absurd (by rw [← extraneousList_toFinset, he]; simp) hne
  · refine ⟨[.installBootstrap, .wheelCache, .installMain,
      .uninstall (extraneousList previously deps recently)], ?_, ?_, ?_⟩
    · simp [do_install, h, he]
    · intro hemp
      rw [← extraneousList_toFinset, List.toFinset_eq_empty_iff] at hemp
      exact absurd hemp he
    · intro _
      exact ⟨rfl, extraneousList_toFinset previously deps recently,
        extraneousList_sorted previously deps recently,
        extraneousList_nodup previously deps recently⟩

theorem traceFuel_selfcycle_none (n : Nat) :
    ∀ s c, s.queue = [⟨some ⟨"a", []⟩, c⟩] →
      traceFuel [⟨"a", 1, "", [⟨"a", []⟩]⟩] n s = none := by
  have hfind : wsFind [⟨"a", 1, "", [⟨"a", []⟩]⟩] ⟨"a", []⟩ =
      .found ⟨"a", 1, "", [⟨"a", []⟩]⟩ := rfl
  have hsort : sortDeps [⟨"a", []⟩] = [⟨"a", []⟩] := rfl
  induction n with
  | zero =>
    intro s c hq
    simp [traceFuel, hq]
  | succ n ih =>
    intro s c hq
    have hstep : (traceStep [⟨"a", 1, "", [⟨"a", []⟩]⟩] s).queue =
        [⟨some ⟨"a", []⟩, strOfReq ⟨some ⟨"a", []⟩, c⟩⟩] := by
      simp [traceStep, hq, hfind, hsort]
    rw [traceFuel]
    simp only [hq]
    simp only [reduceCtorEq, if_false]
    exact ih _ _ hstep

/-- C3 counterexample: `trace_requirements` has neither a depth bound nor
a visited set; on installed metadata with a self-cycle (`a` declares a
dependency on `a`) the queue is re-fed the same package forever, and no
amount of fuel drains it. -/
theorem c3_counterexample :
    ¬ TraceTerminates [⟨"a", 1, "", [⟨"a", []⟩]⟩] [⟨some ⟨"a", []⟩, ""⟩] := by
  rintro ⟨fuel, s, hs⟩
  rw [traceFuel_selfcycle_none fuel (initTrace [⟨some ⟨"a", []⟩, ""⟩]) "" rfl] at hs
  cases hs

theorem qWeight_pos (ws : List Dist) (rank : String → Nat)
    (q : InstallRequirement) : 0 < qWeight ws rank q := by
  cases hq : q.req with
  | none => simp [qWeight, hq]
  | some rr =>
    simp only [qWeight, hq]
    exact pow_pos (Nat.succ_pos _) _

theorem length_le_depBound (ws : List Dist) (d : Dist) (h : d ∈ ws) :
    d.requires.length ≤ depBound ws := by
  induction ws with
  | nil => cases h
  | cons x xs ih =>
    rcases List.mem_cons.mp h with h | h
    · subst h; exact le_max_left _ _
    · exact le_trans (ih h) (le_max_right _ _)

theorem wsFind_found_mem (ws : List Dist) (rr : ReqSpec) (d : Dist)
    (h : wsFind ws rr = .found d ∨ wsFind ws rr = .conflict d) :
    d ∈ ws ∧ d.key = rr.key := by
  unfold wsFind at h
  cases hfind : ws.find? (fun x => x.key == rr.key) with
  | none => rw [hfind] at h; rcases h with h | h <;> cases h
  | some x =>
    rw [hfind] at h
    dsimp only at h
    have h1 := List.mem_of_find?_eq_some hfind
    have h2 : x.key = rr.key := by
      have hx := List.find?_some hfind
      simpa using hx
    have h3 : x = d := by
      rcases h with h | h
      · by_cases hs : specSat rr x.version = true
        · rw [if_pos hs] at h; cases h; rfl
        · rw [if_neg hs] at h; cases h
      · by_cases hs : specSat rr x.version = true
        · rw [if_pos hs] at h; cases h
        · rw [if_neg hs] at h; cases h; rfl
    subst h3
    exact ⟨h1, h2⟩

theorem depsWeight_lt (ws : List Dist) (rank : String → Nat) (d : Dist) (k : Nat)
    (hlen : d.requires.length ≤ depBound ws)
    (hr : ∀ dep ∈ d.requires, rank dep.key < k) :
    ((sortDeps d.requires).map
      (fun dep => (depBound ws + 1) ^ rank dep.key)).sum < (depBound ws + 1) ^ k := by
  have hperm : ((sortDeps d.requires).map
      (fun dep => (depBound ws + 1) ^ rank dep.key)).sum
      = (d.requires.map (fun dep => (depBound ws + 1) ^ rank dep.key)).sum :=
    ((List.perm_insertionSort _ _).map _).sum_eq
  rw [hperm]
  cases k with
  | zero =>
    have hnil : d.requires = [] := by
      cases hreq : d.requires with
      | nil => rfl
      | cons a l =>
        have := hr a (by rw [hreq]; exact List.mem_cons_self a l)
        omega
    rw [hnil]
    simp
  | succ m =>
    have hle : (d.requires.map (fun dep => (depBound ws + 1) ^ rank dep.key)).sum
        ≤ d.requires.length * (depBound ws + 1) ^ m := by
      have hb := List.sum_le_card_nsmul
        (d.requires.map (fun dep => (depBound ws + 1) ^ rank dep.key))
        ((depBound ws + 1) ^ m) ?_
      · simpa [smul_eq_mul] using hb
      · intro x hx
        obtain ⟨dep, hdep, rfl⟩ := List.mem_map.mp hx
        exact Nat.pow_le_pow_right (Nat.succ_pos _) (by have := hr dep hdep; omega)
    calc (d.requires.map (fun dep => (depBound ws + 1) ^ rank dep.key)).sum
        ≤ d.requires.length * (depBound ws + 1) ^ m := hle
      _ ≤ depBound ws * (depBound ws + 1) ^ m :=
          Nat.mul_le_mul_right _ hlen
      _ < (depBound ws + 1) * (depBound ws + 1) ^ m :=
          Nat.mul_lt_mul_of_lt_of_le (Nat.lt_succ_self _) le_rfl
            (pow_pos (Nat.succ_pos _) _)
      _ = (depBound ws + 1) ^ (m + 1) := by ring

theorem traceMeasure_decreases (ws : List Dist) (rank : String → Nat)
    (hacyc : ∀ d ∈ ws, ∀ dep ∈ d.requires, rank dep.key < rank d.key)
    (s : TraceState) (hq : s.queue ≠ []) :
    traceMeasure ws rank (traceStep ws s) < traceMeasure ws rank s := by
  obtain ⟨req, rest, hqe⟩ : ∃ req rest, s.queue = req :: rest := by
    cases h : s.queue with
    | nil => exact absurd h hq
    | cons a l => exact ⟨a, l, rfl⟩
  have hms : traceMeasure ws rank s =
      qWeight ws rank req + (rest.map (qWeight ws rank)).sum := by
    rw [traceMeasure, hqe, List.map_cons, List.sum_cons]
  cases hr : req.req with
  | none =>
    have hstep : traceStep ws s = { s with queue := rest } := by
      simp [traceStep, hqe, hr]
    rw [hstep, hms]
    simp only [traceMeasure]
    exact Nat.lt_add_of_pos_left (qWeight_pos ws rank req)
  | some rr =>
    have hwq : qWeight ws rank req = (depBound ws + 1) ^ rank rr.key := by
      simp [qWeight, hr]
    cases hf : wsFind ws rr with
    | notFound =>
      have hstep : traceStep ws s = { s with queue := rest, errors := true } := by
        simp [traceStep, hqe, hr, hf]
      rw [hstep, hms]
      simp only [traceMeasure]
      exact Nat.lt_add_of_pos_left (qWeight_pos ws rank req)
    | found d =>
      have hmem := wsFind_found_mem ws rr d (Or.inl hf)
      have hstep : (traceStep ws s).queue =
          rest ++ (sortDeps d.requires).map
            (fun dr => { req := some dr, comes_from := strOfReq req }) := by
        simp [traceStep, hqe, hr, hf]
      have hmn : traceMeasure ws rank (traceStep ws s) =
          (rest.map (qWeight ws rank)).sum +
          ((sortDeps d.requires).map
            (fun dep => (depBound ws + 1) ^ rank dep.key)).sum := by
        rw [traceMeasure, hstep, List.map_append, List.sum_append, List.map_map]
        rfl
      have hlt := depsWeight_lt ws rank d (rank rr.key)
        (length_le_depBound ws d hmem.1)
        (fun dep hdep => hmem.2 ▸ hacyc d hmem.1 dep hdep)
      rw [hmn, hms, hwq]
      omega
    | conflict d =>
      have hmem := wsFind_found_mem ws rr d (Or.inr hf)
      have hstep : (traceStep ws s).queue =
          rest ++ (sortDeps d.requires).map
            (fun dr => { req := some dr, comes_from := strOfReq req }) := by
        simp [traceStep, hqe, hr, hf]
      have hmn : traceMeasure ws rank (traceStep ws s) =
          (rest.map (qWeight ws rank)).sum +
          ((sortDeps d.requires).map
            (fun dep => (depBound ws + 1) ^ rank dep.key)).sum := by
        rw [traceMeasure, hstep, List.map_append, List.sum_append, List.map_map]
        rfl
      have hlt := depsWeight_lt ws rank d (rank rr.key)
        (length_le_depBound ws d hmem.1)
        (fun dep hdep => hmem.2 ▸ hacyc d hmem.1 dep hdep)
      rw [hmn, hms, hwq]
      omega

theorem traceFuel_of_measure (ws : List Dist) (rank : String → Nat)
    (hacyc : ∀ d ∈ ws, ∀ dep ∈ d.requires, rank dep.key < rank d.key) :
    ∀ n s, traceMeasure ws rank s ≤ n → ∃ s', traceFuel ws n s = some s' := by
  intro n
  induction n with
  | zero =>
    intro s hm
    have hq : s.queue = [] := by
      cases hqe : s.queue with
      | nil => rfl
      | cons a l =>
        exfalso
        have hpos : 0 < traceMeasure ws rank s := by
          rw [traceMeasure, hqe, List.map_cons, List.sum_cons]
          have := qWeight_pos ws rank a
          omega
        omega
    exact ⟨s, by simp [traceFuel, hq]⟩
  | succ n ih =>
    intro s hm
    by_cases hq : s.queue = []
    · exact ⟨s, by simp [traceFuel, hq]⟩
    · have hd := traceMeasure_decreases ws rank hacyc s hq
      obtain ⟨s', hs'⟩ := ih (traceStep ws s) (by omega)
      exact ⟨s', by simp [traceFuel, hq, hs']⟩

/-- C3 amended: the traversal has no depth bound and tracks no visited
names (see the counterexample); the breadth-first trace does terminate
whenever the installed metadata admits a rank function that strictly
decreases from each distribution to its declared dependencies — in
particular on every acyclic dependency graph. -/
theorem c3_trace_terminates_on_acyclic (ws : List Dist)
    (requirements : List InstallRequirement) (rank : String → Nat)
    (hacyc : ∀ d ∈ ws, ∀ dep ∈ d.requires, rank dep.key < rank d.key) :
    TraceTerminates ws requirements := by
  obtain ⟨s', hs'⟩ := traceFuel_of_measure ws rank hacyc
    (traceMeasure ws rank (initTrace requirements)) (initTrace requirements) le_rfl
  exact ⟨_, s', hs'⟩

/-- C4 counterexample: the append is unconditional.  With a single
dependency-free installed package `a` and the identical requirement
pairing `a` (same requirement, same empty parent tag) appearing twice in
the input, the closure list returned by `trace_requirements` contains a
duplicate entry. -/
theorem c4_counterexample :
    trace_requirements [⟨"a", 1, "", []⟩]
        [⟨some ⟨"a", []⟩, ""⟩, ⟨some ⟨"a", []⟩, ""⟩] 5 =
      some (Except.ok [⟨"a", 1, "", []⟩, ⟨"a", 1, "", []⟩]) ∧
    ¬ ([⟨"a", 1, "", []⟩, ⟨"a", 1, "", []⟩] : List Dist).Nodup :=
  ⟨rfl, by decide⟩

/-- C4 amended: when a dequeued requirement is found and satisfied by an
installed distribution, that distribution is appended to the result list
unconditionally — one append per dequeued satisfied requirement, with no
skip for entries already present — so the closure list may repeat a
distribution reached via several paths or repeated pairings. -/
theorem c4_append_unconditional (ws : List Dist) (s : TraceState)
    (req : InstallRequirement) (rest : List InstallRequirement)
    (rr : ReqSpec) (d : Dist)
    (hq : s.queue = req :: rest) (hr : req.req = some rr)
    (hf : wsFind ws rr = .found d) :
    (traceStep ws s).result = s.result ++ [d] := by
  simp [traceStep, hq, hr, hf]

/-- C4 witness: a step whose result already holds the distribution
appends it a second time. -/
theorem c4_witness :
    (traceStep [⟨"a", 1, "", []⟩]
        ⟨[⟨some ⟨"a", []⟩, ""⟩], [⟨"a", 1, "", []⟩], false, []⟩).result =
      [⟨"a", 1, "", []⟩] ++ [⟨"a", 1, "", []⟩] :=
  c4_append_unconditional [⟨"a", 1, "", []⟩]
    ⟨[⟨some ⟨"a", []⟩, ""⟩], [⟨"a", 1, "", []⟩], false, []⟩
    ⟨some ⟨"a", []⟩, ""⟩ [] ⟨"a", []⟩ ⟨"a", 1, "", []⟩ rfl rfl rfl

theorem searchFindLinks_sound (disk : Disk) (rr : ReqSpec) (reqname : String)
    (links : List String) (w : Wheel)
    (h : searchFindLinks disk rr reqname links = some w) :
    specSat rr w.version = true ∧ w.supported = true := by
  induction links with
  | nil => simp [searchFindLinks] at h
  | cons fl rest ih =>
    rw [searchFindLinks] at h
    by_cases hfl : strStartsWith fl "file://" = true
    · rw [if_pos hfl] at h
      cases hfw : (globWheels disk (fl.drop 7) reqname).find?
          (fun x => specSat rr x.version && x.supported) with
      | none => rw [hfw] at h; exact ih h
      | some x =>
        rw [hfw] at h
        dsimp only at h
        have hx : specSat rr x.version = true ∧ x.supported = true := by
          have hp := List.find?_some hfw
          simpa [Bool.and_eq_true] using hp
        cases h
        exact hx
    · rw [if_neg hfl] at h; exact ih h

/-- C5: the local-artifact lookup is sound.  An unpinned requirement goes
straight to the full network search; a returned local wheel always comes
from a pinned, not-yet-satisfied requirement and satisfies its version
constraint with a supported platform tag; a pinned requirement with no
matching local wheel also falls through to the network search. -/
theorem c5_local_lookup_sound (disk : Disk) (find_links : List String)
    (req_req : Option ReqSpec) (satisfied_by : Option Dist) (reqName : String)
    (upgrade : Bool) :
    (req_is_absolute req_req = false →
      faster_find_requirement disk find_links req_req satisfied_by reqName upgrade =
        .network) ∧
    (∀ w, faster_find_requirement disk find_links req_req satisfied_by reqName upgrade =
        .localLink w →
      req_is_absolute req_req = true ∧ satisfied_by = none ∧
      ∃ rr, req_req = some rr ∧ specSat rr w.version = true ∧ w.supported = true) ∧
    (∀ rr, req_req = some rr → satisfied_by = none →
      searchFindLinks disk rr (mungeName reqName) find_links = none →
      faster_find_requirement disk find_links req_req satisfied_by reqName upgrade =
        .network) := by
  refine ⟨?_, ?_, ?_⟩
  · intro h
    simp [faster_find_requirement, h]
  · intro w h
    unfold faster_find_requirement at h
    by_cases habs : req_is_absolute req_req = true
    · rw [if_pos habs] at h
      cases hsb : satisfied_by with
      | some d =>
        rw [hsb] at h
        dsimp only at h
        cases upgrade <;> simp at h
      | none =>
        rw [hsb] at h
        dsimp only at h
        cases hreq : req_req with
        | none => rw [hreq] at h; dsimp only at h; cases h
        | some rr =>
          rw [hreq] at h
          dsimp only at h
          cases hsl : searchFindLinks disk rr (mungeName reqName) find_links with
          | none => rw [hsl] at h; dsimp only at h; cases h
          | some x =>
            rw [hsl] at h
            dsimp only at h
            obtain ⟨h1, h2⟩ := searchFindLinks_sound disk rr (mungeName reqName)
              find_links x hsl
            cases h
            rw [hreq] at habs
            exact ⟨habs, rfl, rr, rfl, h1, h2⟩
    · rw [if_neg habs] at h
      cases h
  · intro rr hreq hsb hsl
    by_cases habs : req_is_absolute req_req = true
    · simp [faster_find_requirement, habs, hreq, hsb, hsl]
    · simp [faster_find_requirement, habs]

/-- C5 witness: a pinned `a==2` with a matching supported local wheel
returns that wheel, and the soundness conjunct certifies its version and
platform. -/
theorem c5_witness :
    faster_find_requirement [("wh", ⟨"a", 2, true⟩)] ["file://wh"]
        (some ⟨"a", [(Op.eq, 2)]⟩) none "a" false = .localLink ⟨"a", 2, true⟩ ∧
    (req_is_absolute (some ⟨"a", [(Op.eq, 2)]⟩) = true ∧
      (none : Option Dist) = none ∧
      ∃ rr, (some ⟨"a", [(Op.eq, 2)]⟩ : Option ReqSpec) = some rr ∧
        specSat rr (Wheel.mk "a" 2 true).version = true ∧
        (Wheel.mk "a" 2 true).supported = true) :=
  ⟨rfl, (c5_local_lookup_sound [("wh", ⟨"a", 2, true⟩)] ["file://wh"]
      (some ⟨"a", [(Op.eq, 2)]⟩) none "a" false).2.1 ⟨"a", 2, true⟩ rfl⟩

/-- C6: a pinned requirement already satisfied by an active distribution
short-circuits for every disk and find-links configuration (no disk scan
or network search can influence the outcome): with upgrade it raises the
`BestVersionAlreadyInstalled` sentinel, without upgrade it returns
`None`. -/
theorem c6_short_circuit (disk : Disk) (find_links : List String)
    (rr : ReqSpec) (d : Dist) (reqName : String)
    (habs : req_is_absolute (some rr) = true) :
    faster_find_requirement disk find_links (some rr) (some d) reqName true =
      .bestAlreadyInstalled ∧
    faster_find_requirement disk find_links (some rr) (some d) reqName false =
      .noneResult := by
  constructor <;> simp [faster_find_requirement, habs]

/-- C6 witness: pinned `a==1` satisfied by installed `a` version 1. -/
theorem c6_witness :
    req_is_absolute (some ⟨"a", [(Op.eq, 1)]⟩) = true ∧
    faster_find_requirement [] [] (some ⟨"a", [(Op.eq, 1)]⟩)
        (some ⟨"a", 1, "", []⟩) "a" true = .bestAlreadyInstalled ∧
    faster_find_requirement [] [] (some ⟨"a", [(Op.eq, 1)]⟩)
        (some ⟨"a", 1, "", []⟩) "a" false = .noneResult :=
  ⟨rfl, c6_short_circuit [] [] ⟨"a", [(Op.eq, 1)]⟩ ⟨"a", 1, "", []⟩ "a" rfl⟩

/-- C3 witness: on the acyclic two-package metadata `a → b` the trace
terminates (rank: `a` above `b`). -/
theorem c3_witness :
    TraceTerminates [⟨"a", 1, "", [⟨"b", []⟩]⟩, ⟨"b", 2, "", []⟩]
      [⟨some ⟨"a", []⟩, ""⟩] :=
  c3_trace_terminates_on_acyclic _ _ (fun n => if n = "a" then 1 else 0) (by decide)

/-- C2 witness: with `a` and `pip` previously installed, nothing
required and nothing freshly installed, exactly `a` is uninstalled
(`pip` is bootstrap-protected). -/
theorem c2_witness :
    specExtraneous ["a", "pip"] [] [] ≠ ∅ ∧
    (∃ acts, do_install [] ["a", "pip"] [] [] 1 = some (acts, Except.ok ()) ∧
      (specExtraneous ["a", "pip"] [] [] = ∅ →
        ∀ pkgs, PipAction.uninstall pkgs ∉ acts) ∧
      (specExtraneous ["a", "pip"] [] [] ≠ ∅ →
        acts = [.installBootstrap, .wheelCache, .installMain,
                .uninstall (extraneousList ["a", "pip"] [] [])] ∧
        (extraneousList ["a", "pip"] [] []).toFinset = specExtraneous ["a", "pip"] [] [] ∧
        List.Sorted (fun a b : String => a ≤ b) (extraneousList ["a", "pip"] [] []) ∧
        (extraneousList ["a", "pip"] [] []).Nodup)) :=
  ⟨by decide, c2_uninstall_exact_set [] ["a", "pip"] [] [] 1 [] rfl⟩

/-- C7 counterexample: an unanticipated exception raised before the
environment directory exists propagates with no marker movement at all —
the validity marker is not "set to epoch 0 on any failure", and does not
move "exactly once per top-level invocation" on such a run. -/
theorem c7_counterexample :
    main_model (fun _ => false) "venv" (PyResult.exn Exn.otherError) =
      ([], PyResult.exn Exn.otherError) ∧
    touchCount (main_model (fun _ => false) "venv"
      (PyResult.exn Exn.otherError)).1 = 0 :=
  ⟨rfl, rfl⟩

/-- C7 amended: provided the environment directory exists at failure
time, the validity marker moves exactly once per top-level invocation
and only after waiting for all spawned subprocesses: success sets the
directory mtime to the current time, and any failure — `SystemExit`,
`KeyboardInterrupt` (which `raise_on_failure` converts to `exit(1)`) or
an unanticipated exception — sets it to epoch 0 before the outcome
propagates. -/
theorem c7_marker_moves_once (isdir : String → Bool) (venv_path : String)
    (r : PyResult ExitCode) (hdir : isdir venv_path = true) :
    (raise_on_failure r = .ok () →
      main_model isdir venv_path r =
        ([MAct.waitAll, MAct.touch venv_path none], .ok ())) ∧
    (∀ e, raise_on_failure r = .exn e →
      main_model isdir venv_path r =
        ([MAct.waitAll, MAct.touch venv_path (some 0)], .exn e)) ∧
    touchCount (main_model isdir venv_path r).1 = 1 := by
  refine ⟨?_, ?_, ?_⟩
  · intro h
    simp [main_model, h, mark_venv_valid]
  · intro e h
    simp [main_model, h, mark_venv_invalid, hdir]
  · cases hr : raise_on_failure r with
    | ok u =>
      cases u
      simp [main_model, hr, mark_venv_valid, touchCount]
    | exn e =>
      simp [main_model, hr, mark_venv_invalid, hdir, touchCount]

/-- C7 witness: a `KeyboardInterrupt` with the environment directory
present moves the marker back exactly once, and the converted `exit(1)`
propagates. -/
theorem c7_witness :
    main_model (fun _ => true) "venv" (PyResult.exn Exn.keyboardInterrupt) =
      ([MAct.waitAll, MAct.touch "venv" (some 0)],
        PyResult.exn (Exn.systemExit (ExitCode.num 1))) ∧
    touchCount (main_model (fun _ => true) "venv"
      (PyResult.exn Exn.keyboardInterrupt)).1 = 1 :=
  ⟨(c7_marker_moves_once (fun _ => true) "venv"
      (PyResult.exn Exn.keyboardInterrupt) rfl).2.1
        (Exn.systemExit (ExitCode.num 1)) rfl,
   (c7_marker_moves_once (fun _ => true) "venv"
      (PyResult.exn Exn.keyboardInterrupt) rfl).2.2⟩

/-- C8: with an existing source interpreter, equal source/destination
versions keep the environment — no removal, no recreation, control goes
straight to the install phase.  When the versions differ (in particular
whenever the environment's interpreter, the spec's existence test for
the environment, is missing, since that forces version `None` ≠
`some _`), an existing environment directory is removed first, before
either recreation or the re-exec that precedes recreation. -/
theorem c8_version_gate (fs : Fs) (versionOf : String → String)
    (current_python source_python venv_path : String)
    (hsrc : pathExists fs source_python = true) :
    (get_python_version fs versionOf source_python =
        get_python_version fs versionOf (venv_python venv_path) →
      pathExists fs (venv_python venv_path) = true ∧
      adjust_options fs versionOf current_python source_python venv_path = [] ∧
      venv_update_trace fs versionOf current_python source_python venv_path =
        [VAct.pipInstall]) ∧
    (get_python_version fs versionOf source_python ≠
        get_python_version fs versionOf (venv_python venv_path) →
      pathExists fs (venv_python venv_path) = true →
      ∃ tail, adjust_options fs versionOf current_python source_python venv_path =
          VAct.rmRf venv_path :: tail ∧
        (tail = [VAct.createVenv venv_path] ∨
         tail = [VAct.execInto source_python])) := by
  constructor
  · intro heq
    have hsv : get_python_version fs versionOf source_python =
        some (versionOf source_python) := by
      simp [get_python_version, hsrc]
    have hdest : pathExists fs (venv_python venv_path) = true := by
      cases hd : pathExists fs (venv_python venv_path) with
      | false =>
        rw [hsv] at heq
        simp [get_python_version, hd] at heq
      | true => rfl
    refine ⟨hdest, ?_, ?_⟩
    · simp [adjust_options, heq]
    · simp [venv_update_trace, adjust_options, heq, hdest]
  · intro hne hdest
    by_cases hsf : samefile fs current_python source_python = true
    · exact ⟨[VAct.createVenv venv_path],
        by simp [adjust_options, hne, hdest, hsf], Or.inl rfl⟩
    · have hsf0 : samefile fs current_python source_python = false := by
        revert hsf
        cases samefile fs current_python source_python <;> simp
      exact ⟨[VAct.execInto source_python],
        by simp [adjust_options, hne, hdest, hsf0], Or.inr rfl⟩

/-- C8 witness: matching versions (both interpreters exist, both report
"2.7") keep the environment and go straight to install. -/
theorem c8_witness :
    pathExists ⟨[("src", 1), ("env/bin/python", 2)]⟩ "src" = true ∧
    get_python_version ⟨[("src", 1), ("env/bin/python", 2)]⟩ (fun _ => "2.7") "src" =
      get_python_version ⟨[("src", 1), ("env/bin/python", 2)]⟩ (fun _ => "2.7")
        (venv_python "env") ∧
    (pathExists ⟨[("src", 1), ("env/bin/python", 2)]⟩ (venv_python "env") = true ∧
      adjust_options ⟨[("src", 1), ("env/bin/python", 2)]⟩ (fun _ => "2.7")
        "cur" "src" "env" = [] ∧
      venv_update_trace ⟨[("src", 1), ("env/bin/python", 2)]⟩ (fun _ => "2.7")
        "cur" "src" "env" = [VAct.pipInstall]) :=
  ⟨rfl, rfl,
    (c8_version_gate ⟨[("src", 1), ("env/bin/python", 2)]⟩ (fun _ => "2.7")
      "cur" "src" "env" rfl).1 rfl⟩

theorem find?_insert_of_ne (fs : Fs) (p q : String) (i : Nat)
    (h : (p == q) = false) :
    ((fs.insert p i).files.find? fun e => e.1 == q) =
      (fs.files.find? fun e => e.1 == q) := by
  simp only [Fs.insert]
  rw [List.find?_cons_of_neg]
  simpa using h

theorem pathExists_insert_of_ne (fs : Fs) (p q : String) (i : Nat)
    (h : (p == q) = false) :
    pathExists (fs.insert p i) q = pathExists fs q := by
  unfold pathExists
  rw [find?_insert_of_ne fs p q i h]

theorem inode_insert_of_ne (fs : Fs) (p q : String) (i : Nat)
    (h : (p == q) = false) :
    inode (fs.insert p i) q = inode fs q := by
  unfold inode
  rw [find?_insert_of_ne fs p q i h]

theorem samefile_insert (fs : Fs) (a b p : String) (i : Nat)
    (hp : pathExists fs p = false) (hsf : samefile fs a b = true) :
    samefile (fs.insert p i) a b = true := by
  have ha : pathExists fs a = true := by
    cases hx : pathExists fs a with
    | false => unfold samefile at hsf; rw [hx] at hsf; simp at hsf
    | true => rfl
  have hb : pathExists fs b = true := by
    cases hx : pathExists fs b with
    | false => unfold samefile at hsf; rw [hx] at hsf; simp at hsf
    | true => rfl
  have hio : (inode fs a == inode fs b) = true := by
    unfold samefile at hsf
    rw [ha, hb] at hsf
    simpa using hsf
  have hpa : (p == a) = false := by
    cases hx : p == a with
    | false => rfl
    | true =>
      have hqa : p = a := by simpa using hx
      subst hqa
      rw [ha] at hp
      cases hp
  have hpb : (p == b) = false := by
    cases hx : p == b with
    | false => rfl
    | true =>
      have hqb : p = b := by simpa using hx
      subst hqb
      rw [hb] at hp
      cases hp
  unfold samefile
  rw [pathExists_insert_of_ne fs p a i hpa, pathExists_insert_of_ne fs p b i hpb,
    inode_insert_of_ne fs p a i hpa, inode_insert_of_ne fs p b i hpb, ha, hb]
  simpa using hio

theorem samefile_condInsert (fs : Fs) (t a b : String) (i : Nat)
    (hsf : samefile fs a b = true) :
    samefile (if pathExists fs t then fs else fs.insert t i) a b = true := by
  by_cases ht : pathExists fs t = true
  · rw [if_pos ht]
    exact hsf
  · rw [if_neg ht]
    refine samefile_insert fs a b t i ?_ hsf
    revert ht
    cases pathExists fs t <;> simp

/-- C9: interpreters are compared by filesystem identity, not path
strings: when the running executable and the re-exec target resolve to
the same file, `adjust_options` performs no `execv` (for any target
path) and `exec_intermediate_virtualenv` returns instead of re-execing,
so a re-exec chain whose source and destination resolve to the same
file stops immediately. -/
theorem c9_samefile_stops_reexec (fs : Fs) (versionOf : String → String)
    (current_python source_python venv_path cache_dir script : String)
    (id1 id2 id3 : Nat)
    (h1 : samefile fs current_python source_python = true)
    (h2 : samefile fs (dotpy script)
      (cache_dir ++ "/venv-update" ++ "/venv-update") = true) :
    (∀ py, VAct.execInto py ∉
      venv_update_trace fs versionOf current_python source_python venv_path) ∧
    (exec_intermediate_virtualenv fs cache_dir script id1 id2 id3).2 = none := by
  constructor
  · intro py
    have hadj : VAct.execInto py ∉
        adjust_options fs versionOf current_python source_python venv_path := by
      unfold adjust_options
      dsimp only
      by_cases hv : get_python_version fs versionOf source_python =
          get_python_version fs versionOf (venv_python venv_path)
      · rw [if_pos hv]
        simp
      · rw [if_neg hv, if_pos h1]
        intro hmem
        rcases List.mem_append.mp hmem with hm | hm
        · revert hm
          split <;> simp
        · simp at hm
    unfold venv_update_trace
    dsimp only
    split
    · exact hadj
    · split
      · intro hmem
        rcases List.mem_append.mp hmem with hm | hm
        · exact hadj hm
        · simp at hm
      · split
        · intro hmem
          rcases List.mem_append.mp hmem with hm | hm
          · exact hadj hm
          · simp at hm
        · exact hadj
  · have hsf1 := samefile_condInsert fs
      (venv_python (cache_dir ++ "/venv-update" ++ "/venv"))
      (dotpy script) (cache_dir ++ "/venv-update" ++ "/venv-update") id1 h2
    have hsf2 := samefile_condInsert _
      (cache_dir ++ "/venv-update" ++ "/virtualenv.py")
      (dotpy script) (cache_dir ++ "/venv-update" ++ "/venv-update") id2 hsf1
    have hsf3 := samefile_condInsert _
      (cache_dir ++ "/venv-update" ++ "/venv-update")
      (dotpy script) (cache_dir ++ "/venv-update" ++ "/venv-update") id3 hsf2
    unfold exec_intermediate_virtualenv
    dsimp only
    rw [if_pos hsf3]

/-- C9 witness: `py` and `src` are distinct paths to the same inode, and
the scratch copy has the script's inode; neither re-exec fires. -/
theorem c9_witness :
    VAct.execInto "src" ∉
      venv_update_trace
        ⟨[("py", 1), ("src", 1), ("script", 2), ("cache/venv-update/venv-update", 2)]⟩
        (fun _ => "2.7") "py" "src" "env" ∧
    (exec_intermediate_virtualenv
        ⟨[("py", 1), ("src", 1), ("script", 2), ("cache/venv-update/venv-update", 2)]⟩
        "cache" "script" 7 8 9).2 = none :=
  ⟨(c9_samefile_stops_reexec
      ⟨[("py", 1), ("src", 1), ("script", 2), ("cache/venv-update/venv-update", 2)]⟩
      (fun _ => "2.7") "py" "src" "env" "cache" "script" 7 8 9 rfl rfl).1 "src",
   (c9_samefile_stops_reexec
      ⟨[("py", 1), ("src", 1), ("script", 2), ("cache/venv-update/venv-update", 2)]⟩
      (fun _ => "2.7") "py" "src" "env" "cache" "script" 7 8 9 rfl rfl).2⟩

/-- C10: on failure the backward marker move is conditional on the
environment directory: `mark_venv_invalid` performs no filesystem action
when the path is `None` or is not a directory. -/
theorem c10_invalid_noop_without_dir (isdir : String → Bool) (p : String)
    (h : isdir p = false) :
    mark_venv_invalid none isdir = [] ∧ mark_venv_invalid (some p) isdir = [] := by
  constructor
  · rfl
  · simp [mark_venv_invalid, h]

/-- C10 witness: with no directory present, nothing is touched. -/
theorem c10_witness :
    mark_venv_invalid none (fun _ => false) = [] ∧
    mark_venv_invalid (some "venv") (fun _ => false) = [] :=
  c10_invalid_noop_without_dir (fun _ => false) "venv" rfl
